import Mathlib

/-!
Verification of the ureq HTTP client core against its specification.

The development shallowly embeds the parts of the code the claims are
about: the header map, body-length delimitation (`src/h1/limit.rs` and
`src/response.rs`), the keep-alive decision (`src/conn.rs`), the HTTP/1.1
protocol engine (`src/h1/mod.rs`), the body pipeline (`src/body.rs`) and
request-head serialization (`src/unit.rs`, `src/conn.rs`). Machine
integers become `Nat` with explicit bounds where overflow matters, byte
buffers become `List Nat`, and fallible code returns `Option`/sum types.
-/

/-- A header map: (name, value) pairs in insertion order. Both the ureq
`Vec<Header>` and `http::HeaderMap` are modelled this way; lookups are
case-insensitive on the name and return the first match, as
`get_header` (src/header.rs) and `HeaderMap::get` both do. -/
abbrev Headers := List (String × String)

/-- ASCII lowercasing, character by character (header names and the
values compared here are ASCII): Rust's `eq_ignore_ascii_case` /
`to_lowercase` on such strings. -/
def asciiLower (s : String) : String :=
  ⟨s.data.map Char.toLower⟩

/-- Both ends stripped of whitespace: Rust's `str::trim`. -/
def trimStr (s : String) : String :=
  ⟨((s.data.dropWhile Char.isWhitespace).reverse.dropWhile Char.isWhitespace).reverse⟩

/-- First header whose name matches case-insensitively, raw value.
Embeds `get_header` / `HeaderMap::get`. -/
def getHeader (hs : Headers) (name : String) : Option String :=
  (hs.find? (fun p => asciiLower p.1 == asciiLower name)).map (·.2)

/-- ureq's `Header::value()` trims the value (src/header.rs line 40). -/
def headerValue (hs : Headers) (name : String) : Option String :=
  (getHeader hs name).map trimStr

/-- `has_header` (src/header.rs line 84). -/
def hasHeaderL (hs : Headers) (name : String) : Bool :=
  (getHeader hs name).isSome

/-- Rust's `str::parse::<uN>()`: optional leading `+`, decimal digits,
rejects values at or above `2^bits`. -/
def parseUnsigned (bits : Nat) (s : String) : Option Nat :=
  let l := match s.data with
    | '+' :: t => t
    | l => l
  if l ≠ [] ∧ l.all Char.isDigit then
    let n := l.foldl (fun a c => a * 10 + (c.toNat - 48)) 0
    if n < 2 ^ bits then some n else none
  else none

/-- `pat` occurs as a contiguous run inside `l`. -/
def listContains (pat : List Char) : List Char → Bool
  | [] => pat.isPrefixOf []
  | c :: t => pat.isPrefixOf (c :: t) || listContains pat t

/-- Rust's `str::contains(pat)`: substring containment. -/
def containsSub (s pat : String) : Bool :=
  listContains pat.toList s.toList

/-! ## C1: body-length delimitation -/

/-- Which reader a response body is wrapped in. -/
inductive LimiterSel
  | chunked
  | contentLength (n : Nat)
  | untilEnd
deriving DecidableEq

/-- Embeds `Limiter::from_res` (src/h1/limit.rs lines 41-62): the
`transfer-encoding` value is compared byte-equal to `"chunked"`, the
length is read from a header literally named `"content-size"`, and
chunked is used whenever that header is absent or unparseable. -/
def Limiter.from_res (hs : Headers) : LimiterSel :=
  let transferEncChunk :=
    ((getHeader hs "transfer-encoding").map (fun h => h == "chunked")).getD false
  let contentSize := (getHeader hs "content-size").bind (parseUnsigned 64)
  let useChunked := transferEncChunk || contentSize.isNone
  if useChunked then
    LimiterSel.chunked
  else
    match contentSize with
    | some size => LimiterSel.contentLength size
    | none => LimiterSel.untilEnd

/-- Embeds the reader selection of `Response::into_reader`
(src/response.rs lines 246-260): any present `transfer-encoding` header
with a non-empty (trimmed) value selects the chunked decoder
("whatever it says, do chunked"), else a parseable `content-length`
selects `LimitedRead`, else the stream is read until EOF. -/
def intoReaderSel (hs : Headers) : LimiterSel :=
  let isChunked :=
    ((headerValue hs "transfer-encoding").map (fun enc => decide (enc.length > 0))).getD false
  let len := (headerValue hs "content-length").bind (parseUnsigned 64)
  if isChunked then
    LimiterSel.chunked
  else
    match len with
    | some l => LimiterSel.contentLength l
    | none => LimiterSel.untilEnd

/-- The selection the spec describes, written from the spec's words:
`Transfer-Encoding: chunked` present → chunked; else `Content-Length`
present and parseable → content-length limiter; else until-EOF. -/
def claimBodySel (hs : Headers) : LimiterSel :=
  let teChunked :=
    ((headerValue hs "transfer-encoding").map (fun v => asciiLower v == "chunked")).getD false
  if teChunked then
    LimiterSel.chunked
  else
    match (headerValue hs "content-length").bind (parseUnsigned 64) with
    | some l => LimiterSel.contentLength l
    | none => LimiterSel.untilEnd

/-! ## C2: keep-alive decision -/

/-- Embeds the `keep_alive_possible` computation in `connect`
(src/conn.rs lines 151-174). -/
def keepAlivePossible (reqHeaders respHeaders : Headers) : Bool :=
  let reqIsClose :=
    ((headerValue reqHeaders "connection").map
      (fun k => containsSub (asciiLower k) "close")).getD false
  let respIsClose :=
    ((headerValue respHeaders "connection").map
      (fun k => containsSub (asciiLower k) "close")).getD false
  !reqIsClose && !respIsClose &&
    (hasHeaderL respHeaders "content-length" || hasHeaderL respHeaders "transfer-encoding")

/-- The keep-alive formula the spec's words describe: the last disjunct
requires the response to actually use chunked transfer encoding. -/
def claimKeepAlive (reqHeaders respHeaders : Headers) : Bool :=
  let reqIsClose :=
    ((headerValue reqHeaders "connection").map
      (fun k => containsSub (asciiLower k) "close")).getD false
  let respIsClose :=
    ((headerValue respHeaders "connection").map
      (fun k => containsSub (asciiLower k) "close")).getD false
  let usesChunked :=
    ((headerValue respHeaders "transfer-encoding").map
      (fun v => asciiLower v == "chunked")).getD false
  !reqIsClose && !respIsClose &&
    (hasHeaderL respHeaders "content-length" || usesChunked)

/-! ## C3: response-header accumulation -/

/-- The terminator `\r\n\r\n` as byte values. -/
def endOfHeader : List Nat := [13, 10, 13, 10]

/-- Embeds the scanning loop of `RecvRes::poll_connection`
(src/h1/mod.rs lines 428-475). One byte at a time is read from the
transport and pushed onto `buf`; the match counter `ei` advances when
the byte equals `endOfHeader[ei]` and otherwise resets to zero without
re-examining the byte. On success returns the accumulated buffer and
the unread remainder of the stream; `none` models the UnexpectedEof
error when the stream ends first. -/
def recvResScan (ei : Nat) (buf : List Nat) : List Nat → Option (List Nat × List Nat)
  | [] => none
  | b :: rest =>
    let buf' := buf ++ [b]
    let ei' := if b = endOfHeader.getD ei 0 then ei + 1 else 0
    if ei' = endOfHeader.length then some (buf', rest)
    else recvResScan ei' buf' rest

/-- The scan the spec's words describe: stop at the very first
occurrence of `\r\n\r\n`, consuming nothing after it. -/
def claimHeaderScan (buf : List Nat) : List Nat → Option (List Nat × List Nat)
  | [] => none
  | b :: rest =>
    let buf' := buf ++ [b]
    if buf'.drop (buf'.length - 4) = endOfHeader then some (buf', rest)
    else claimHeaderScan buf' rest

/-! ## C4, C5, C6: the H1 engine state machine and its error handling -/

/-- `State` (src/h1/mod.rs lines 229-241). -/
inductive HState
  | Ready
  | SendBody
  | Waiting
  | RecvBody
  | Closed
deriving DecidableEq

/-- The observable outcome of the one engine task that
`Connection::poll` runs to completion in a poll step: which task kind
finished and with what result. IO errors carry the error text. -/
inductive HEvent
  | sendReqDone (endFlag : Bool)
  | sendBodyDone (endFlag : Bool)
  | recvResDone
  | recvBodyRead (amount : Nat) (reuse : Bool)
  | ioError (msg : String)

/-- The error type surfaced by handles (src/h1/error.rs, used as
`Error::Message` / `Error::Static` in src/h1/mod.rs). -/
inductive HErr
  | message (s : String)
  | static (s : String)
deriving DecidableEq

/-- The shared Rust `Inner` (src/h1/mod.rs lines 243-250), restricted to the
fields the engine transitions read and write. The task queue and wakers
are represented by the event fed to each step. -/
structure HInner where
  nextSeq : Nat
  curSeq : Nat
  state : HState
  error : Option String
deriving DecidableEq

/-- `Inner::new` (src/h1/mod.rs lines 253-262). -/
def HInner.new : HInner :=
  { nextSeq := 0, curSeq := 0, state := HState.Ready, error := none }

/-- `Inner::mark_error` (src/h1/mod.rs lines 271-274). -/
def HInner.markError (i : HInner) (e : String) : HInner :=
  { i with state := HState.Closed, error := some e }

/-- Result of code that may hit an `unwrap` of `None`. -/
inductive Unwrapped (α : Type)
  | panicked
  | ok (v : α)
deriving DecidableEq

/-- `Inner::get_remote_error` (src/h1/mod.rs lines 276-281): when the
state is `Closed` it unconditionally unwraps the stored error —
`panicked` models the `unwrap` of `None`. -/
def HInner.getRemoteError (i : HInner) : Unwrapped (Option HErr) :=
  match i.state with
  | HState.Closed =>
    match i.error with
    | some e => Unwrapped.ok (some (HErr.message e))
    | none => Unwrapped.panicked
  | _ => Unwrapped.ok none

/-- One iteration of the engine loop in `Connection::poll`
(src/h1/mod.rs lines 306-350) combined with the per-task transitions of
the `ConnectionPoll` impls (lines 363-504).

Modelled from the spec: the task dispatch `Tasks::task_for_state` is not
under src/ (src/h1/task.rs predates it); per spec section 4.F a task
runs when its seq is `cur_seq` and its kind matches the current state,
so an event whose task kind does not match the state leaves `Inner`
unchanged. Everything else follows the code: `SendReq` completion moves
to `SendBody`/`Waiting` by its end flag, `SendBody` completion stays or
moves to `Waiting`, `RecvRes` completion moves to `RecvBody`, a 0-byte
`RecvBody` read moves to `Ready` (bumping `cur_seq`, lines 332-334) or
`Closed` by `reuse_conn`, an IO error marks the error (line 339), and a
`Closed` connection performs no step (lines 319-327). -/
def HInner.step (i : HInner) (e : HEvent) : HInner :=
  if i.state = HState.Closed then i
  else
    match i.state, e with
    | _, HEvent.ioError msg => i.markError msg
    | HState.Ready, HEvent.sendReqDone endFlag =>
      { i with state := if endFlag then HState.Waiting else HState.SendBody }
    | HState.SendBody, HEvent.sendBodyDone endFlag =>
      { i with state := if endFlag then HState.Waiting else HState.SendBody }
    | HState.Waiting, HEvent.recvResDone =>
      { i with state := HState.RecvBody }
    | HState.RecvBody, HEvent.recvBodyRead amount reuse =>
      if amount = 0 then
        if reuse then { i with state := HState.Ready, curSeq := i.curSeq + 1 }
        else { i with state := HState.Closed }
      else i
    | _, _ => i

/-- Run the engine over a sequence of poll-step events. -/
def HInner.run (i : HInner) : List HEvent → HInner
  | [] => i
  | e :: es => (i.step e).run es

/-- The sequence of values taken by `HInner.state`, starting state
included. -/
def HInner.stateTrace (i : HInner) : List HEvent → List HState
  | [] => [i.state]
  | e :: es => i.state :: (i.step e).stateTrace es

/-- The transition table of spec section 4.G, as a relation on states:
these are the only moves (besides staying put) a poll step may make. -/
def specEdge : HState → HState → Prop
  | HState.Ready, HState.SendBody => True
  | HState.Ready, HState.Waiting => True
  | HState.SendBody, HState.Waiting => True
  | HState.Waiting, HState.RecvBody => True
  | HState.RecvBody, HState.Ready => True
  | _, HState.Closed => True
  | _, _ => False

instance : DecidablePred (fun p : HState × HState => specEdge p.1 p.2) := by
  intro p
  obtain ⟨a, b⟩ := p
  cases a <;> cases b <;> simp only [specEdge] <;> infer_instance


/-- The observable result of polling a handle, as far as the claims
need it: the poll may hit the `unwrap` panic inside
`get_remote_error`, return `Ready(Err(..))`, or proceed to the rest of
the function (task lookup and parsing). -/
inductive PollOutcome
  | panicked
  | readyErr (e : HErr)
  | proceeds
deriving DecidableEq

/-- Embeds the prefix of `ResponseFuture::poll` (src/h1/mod.rs lines
75-99): the stored remote error is checked before anything else; only
when there is none does the poll go on to the `RecvRes` task (the
`proceeds` outcome). -/
def responseFuturePoll (i : HInner) : PollOutcome :=
  match i.getRemoteError with
  | Unwrapped.panicked => PollOutcome.panicked
  | Unwrapped.ok (some e) => PollOutcome.readyErr e
  | Unwrapped.ok none => PollOutcome.proceeds

/-- Embeds the prefix of `SendStream::poll_can_send_data`
(src/h1/mod.rs lines 112-126), which performs the same
`get_remote_error` check before `assert_can_send_body` and the task
lookup. -/
def sendStreamPollCanSendData (i : HInner) : PollOutcome :=
  match i.getRemoteError with
  | Unwrapped.panicked => PollOutcome.panicked
  | Unwrapped.ok (some e) => PollOutcome.readyErr e
  | Unwrapped.ok none => PollOutcome.proceeds

/-! ## C7: body streams are permanently finished after a 0-byte read -/

/-- Embeds `RecvStream::read` (src/h1/mod.rs lines 161-180) one call at
a time. The limiter/`RecvReader` round trip is abstracted by the number
of bytes it hands back (`limAmount`); when `finished` is already set
the function returns 0 without constructing a reader at all, which is
why the result ignores `limAmount` in that case. Returns the bytes
delivered and the new `finished` flag. -/
def recvStreamRead (finished : Bool) (limAmount : Nat) : Nat × Bool :=
  if finished then (0, true)
  else (limAmount, limAmount == 0)

/-- `BUF_SIZE` (src/body.rs line 23). -/
def bufSize : Nat := 16384

/-- State of `BodyReader` (src/body.rs lines 166-180): `bufContent` is
the live prefix `read_buf[0..read_buf_end]`, `leftover` the stashed
`leftover_bytes` (empty list = `None`), and `src` the bytes the
underlying `BodyImpl` source will still deliver before EOF. -/
structure BodyReaderM where
  bufContent : List Nat
  leftover : List Nat
  isFinished : Bool
  src : List Nat
deriving DecidableEq

/-- Embeds `BodyReader::poll_read_to_buf` (src/body.rs lines 262-293)
for a destination of length `bufLen`: leftovers are drained first (and
do not set `is_finished` even when empty-capped); otherwise up to
`bufLen` bytes come off the source, and a 0-byte result marks the
reader finished. Returns (amount, bytes written, new state). -/
def pollReadToBuf (b : BodyReaderM) (bufLen : Nat) : Nat × List Nat × BodyReaderM :=
  if b.isFinished then (0, [], b)
  else if b.leftover.length > 0 then
    let mx := min b.leftover.length bufLen
    (mx, b.leftover.take mx, { b with leftover := b.leftover.drop mx })
  else
    let amount := min bufLen b.src.length
    (amount, b.src.take amount,
      { b with src := b.src.drop amount, isFinished := amount == 0 })

/-- Embeds `BodyReader::do_poll_fill` (src/body.rs lines 244-260):
only fills when the internal buffer is empty, reading up to `BUF_SIZE`
bytes; returns `read_buf_end` after the fill. -/
def doPollFill (b : BodyReaderM) : Nat × BodyReaderM :=
  if b.bufContent.length > 0 then (b.bufContent.length, b)
  else if b.isFinished then (0, b)
  else
    let r := pollReadToBuf b bufSize
    (r.1, { r.2.2 with bufContent := r.2.1 })

/-- Embeds `BodyReader::poll_read` (src/body.rs lines 296-318): serves
from the internal buffer, filling it first when empty; a finished
reader with an empty buffer returns 0 untouched. Returns the bytes
delivered and the new state. -/
def brPollRead (b : BodyReaderM) (bufLen : Nat) : Nat × BodyReaderM :=
  if b.bufContent.length = 0 then
    if b.isFinished then (0, b)
    else
      let f := doPollFill b
      if f.1 = 0 then (0, f.2)
      else
        let mx := min f.2.bufContent.length bufLen
        (mx, { f.2 with bufContent := f.2.bufContent.drop mx })
  else
    let mx := min b.bufContent.length bufLen
    (mx, { b with bufContent := b.bufContent.drop mx })

/-! ## C8: content-length limited bodies -/

/-- `ContentLength` (src/h1/limit.rs lines 11-14). `limit` and `total`
are `u64`; `total` only ever grows up to `limit`, so plain `Nat`
subtraction matches the source. -/
structure CLimit where
  limit : Nat
  total : Nat
deriving DecidableEq

/-- `ContentLength::new` (src/h1/limit.rs lines 17-19). -/
def CLimit.new (limit : Nat) : CLimit := { limit := limit, total := 0 }

/-- Embeds `ContentLength::read_from` (src/h1/limit.rs lines 20-29)
against a source that still holds `src` bytes: the request is capped to
`limit - total` (the `.min(usize::MAX)` cap only matters beyond 2^64
and is dropped), the underlying `RecvReader` hands back at most the
capped request, modelled as `min` with what the source still has.
Returns (amount, new limiter state, new source state). -/
def CLimit.read_from (cl : CLimit) (src : Nat) (bufLen : Nat) : Nat × CLimit × Nat :=
  let left := cl.limit - cl.total
  if left = 0 then (0, cl, src)
  else
    let mx := min bufLen left
    let amount := min mx src
    (amount, { cl with total := cl.total + amount }, src - amount)

/-- Total bytes handed out by a sequence of `read_from` calls with the
given buffer lengths. -/
def clReadSeqTotal (cl : CLimit) (src : Nat) : List Nat → Nat
  | [] => 0
  | b :: bs =>
    let r := cl.read_from src b
    r.1 + clReadSeqTotal r.2.1 r.2.2 bs

/-- Draining: repeated `read_from` with a fixed buffer length until a
read returns 0 (or fuel runs out); yields the total bytes delivered. -/
def clDrain (fuel : Nat) (cl : CLimit) (src : Nat) (bufLen : Nat) : Nat :=
  match fuel with
  | 0 => 0
  | fuel + 1 =>
    let r := cl.read_from src bufLen
    if r.1 = 0 then 0 else r.1 + clDrain fuel r.2.1 r.2.2 bufLen

/-- `LimitedRead` (src/response.rs lines 441-445). -/
structure LimitedReadM where
  limit : Nat
  position : Nat
deriving DecidableEq

/-- Embeds `LimitedRead::read` (src/response.rs lines 457-472): the
destination is shrunk to `limit - position` when that is smaller, the
underlying stream fills as much of it as it can (modelled as `min`
with the `src` bytes it still has), and `position` advances by the
amount actually read. -/
def LimitedReadM.read (lr : LimitedReadM) (src : Nat) (bufLen : Nat) :
    Nat × LimitedReadM × Nat :=
  let left := lr.limit - lr.position
  let fromLen := if left < bufLen then left else bufLen
  let amount := min fromLen src
  (amount, { lr with position := lr.position + amount }, src - amount)

/-- Total bytes handed out by a sequence of `LimitedRead::read` calls. -/
def lrReadSeqTotal (lr : LimitedReadM) (src : Nat) : List Nat → Nat
  | [] => 0
  | b :: bs =>
    let r := lr.read src b
    r.1 + lrReadSeqTotal r.2.1 r.2.2 bs

/-- Draining a `LimitedRead` with a fixed buffer length. -/
def lrDrain (fuel : Nat) (lr : LimitedReadM) (src : Nat) (bufLen : Nat) : Nat :=
  match fuel with
  | 0 => 0
  | fuel + 1 =>
    let r := lr.read src bufLen
    if r.1 = 0 then 0 else r.1 + lrDrain fuel r.2.1 r.2.2 bufLen

/-! ## C9: deferred content-encoding codec -/

/-- `ContentEncoding` (src/body.rs lines 82-90), gzip feature on. -/
inductive CodecKind
  | Deferred
  | Plain
  | GzipDecode
  | GzipEncode
deriving DecidableEq

/-- `ContentEncoding::from_headers` (src/body.rs lines 93-108):
absent header or unrecognised value gives `Plain` (the latter logs a
warning), `gzip` picks the decoder or encoder by `is_decode`. -/
def CodecKind.from_headers (hs : Headers) (isDecode : Bool) : CodecKind :=
  match getHeader hs "content-encoding", isDecode with
  | none, _ => CodecKind.Plain
  | some v, true => if v == "gzip" then CodecKind.GzipDecode else CodecKind.Plain
  | some v, false => if v == "gzip" then CodecKind.GzipEncode else CodecKind.Plain

/-- `BodyCodec` (src/body.rs lines 128-135) over an abstract reader. -/
inductive BodyCodecM (α : Type)
  | deferredC (r : Option α)
  | plainC (r : α)
  | gzipDecoderC (r : α)
  | gzipEncoderC (r : α)
deriving DecidableEq

/-- `BodyCodec::new` (src/body.rs lines 138-152). -/
def BodyCodecM.new {α : Type} (kind : CodecKind) (reader : α) : BodyCodecM α :=
  match kind with
  | CodecKind.Deferred => BodyCodecM.deferredC (some reader)
  | CodecKind.Plain => BodyCodecM.plainC reader
  | CodecKind.GzipDecode => BodyCodecM.gzipDecoderC reader
  | CodecKind.GzipEncode => BodyCodecM.gzipEncoderC reader

/-- Embeds `Body::resolve_deferred` (src/body.rs lines 57-64): only a
`Deferred(Some(_))` codec is rewritten; in every other case — including
an already-configured codec — the function silently returns with the
codec unchanged. There is no error channel. -/
def resolveDeferred {α : Type} (c : BodyCodecM α) (kind : CodecKind) : BodyCodecM α :=
  match c with
  | BodyCodecM.deferredC (some r) => BodyCodecM.new kind r
  | _ => c

/-- `BodyCodec::poll_read` (src/body.rs lines 372-388) panics on a
still-deferred codec and otherwise delegates to the wrapped reader:
`true` models reaching the `panic!`. -/
def BodyCodecM.pollReadPanics {α : Type} : BodyCodecM α → Bool
  | BodyCodecM.deferredC _ => true
  | _ => false

/-! ## C10: request head serialization -/

/-- The parts of a parsed `Url` the prelude uses. -/
structure UrlM where
  path : String
  query : Option String
  host : String
deriving DecidableEq

/-- Embeds `combine_query` (src/unit.rs lines 233-240). -/
def combine_query (u : UrlM) (q : String) : String :=
  match u.query, decide (q.length > 0) with
  | some urlq, true => "?" ++ urlq ++ "&" ++ q
  | some urlq, false => "?" ++ urlq
  | none, true => "?" ++ q
  | none, false => ""

/-- Embeds the `query_string` computation in `connect`
(src/conn.rs lines 24-29): same cases as `combine_query` but the two
non-empty components are concatenated with no separator. -/
def connQueryString (u : UrlM) (q : String) : String :=
  match u.query, decide (q.length > 0) with
  | some urlq, true => "?" ++ urlq ++ q
  | some urlq, false => "?" ++ urlq
  | none, true => "?" ++ q
  | none, false => ""

/-- The query string the spec's words describe: the URL's query and the
extension joined by `&`, with a leading `?` when either part is
present. -/
def specQuery (uq : Option String) (q : String) : String :=
  match uq, decide (q.length > 0) with
  | some urlq, true => "?" ++ urlq ++ "&" ++ q
  | some urlq, false => "?" ++ urlq
  | none, true => "?" ++ q
  | none, false => ""

/-- Sequential `write!` calls: the concatenation of a list of emitted
strings. -/
def concatLines : List String → String
  | [] => ""
  | s :: rest => s ++ concatLines rest

/-- `Header::is_name` (src/header.rs line 51). -/
def headerPairIsName (p : String × String) (name : String) : Bool :=
  asciiLower p.1 == asciiLower name

/-- `Header::is_value(other, true)` (src/header.rs lines 63-69), on the
trimmed stored value. -/
def headerPairValueIs (p : String × String) (v : String) : Bool :=
  asciiLower (trimStr p.2) == asciiLower v

/-- The fields of `Unit` that `send_prelude` reads. `queryString` is
computed by `Unit::new` as `combine_query(&url, &req.query)`. -/
structure UnitM where
  url : UrlM
  queryString : String
  headers : Headers
deriving DecidableEq

/-- Embeds `send_prelude` (src/unit.rs lines 261-291): request line from
method, path and the precomputed query string; `Host` inserted exactly
when no caller header has that name; caller headers written in order
(the value trimmed, as `Header::value()` trims), skipping
`Expect: 100-continue` when `use_expect100` is off; terminated by an
empty CRLF line. -/
def send_prelude (unit : UnitM) (method : String) (use100 : Bool) : String :=
  method ++ " " ++ unit.url.path ++ unit.queryString ++ " HTTP/1.1\r\n"
    ++ (if hasHeaderL unit.headers "host" then ""
        else "Host: " ++ unit.url.host ++ "\r\n")
    ++ concatLines (unit.headers.filterMap (fun h =>
        if !use100 && headerPairIsName h "expect" && headerPairValueIs h "100-continue"
        then none
        else some (h.1 ++ ": " ++ trimStr h.2 ++ "\r\n")))
    ++ "\r\n"

/-- Embeds the prelude written by `connect` (src/conn.rs lines 80-95):
as `send_prelude` but with conn.rs's query composition and no
expect-100 filtering (`headers` stands for the already-chained caller,
cookie and extra headers). -/
def connPrelude (u : UrlM) (q : String) (method : String) (headers : Headers) : String :=
  method ++ " " ++ u.path ++ connQueryString u q ++ " HTTP/1.1\r\n"
    ++ (if hasHeaderL headers "host" then ""
        else "Host: " ++ u.host ++ "\r\n")
    ++ concatLines (headers.map (fun h => h.1 ++ ": " ++ trimStr h.2 ++ "\r\n"))
    ++ "\r\n"

/-! ## Theorems -/

/-- C1 counterexample: a response with only `Content-Length: 5` gets the
chunked decoder from `Limiter::from_res` (the code consults a
"content-size" header and falls back to chunked), not the content-length
limiter the claim requires; and `into_reader` picks the chunked decoder
for `Transfer-Encoding: gzip` even with a parseable `Content-Length`. -/
theorem c1_counterexample :
    Limiter.from_res [("Content-Length", "5")] = LimiterSel.chunked ∧
    claimBodySel [("Content-Length", "5")] = LimiterSel.contentLength 5 ∧
    intoReaderSel [("Transfer-Encoding", "gzip"), ("Content-Length", "5")]
      = LimiterSel.chunked ∧
    claimBodySel [("Transfer-Encoding", "gzip"), ("Content-Length", "5")]
      = LimiterSel.contentLength 5 := by
  refine ⟨by decide, by decide, by decide, by decide⟩

/-- C1 amended: `Limiter::from_res` uses the chunked decoder when
`Transfer-Encoding` equals "chunked" or when no parseable
`content-size` header is present, uses the content-length limiter only
on a parseable `content-size`, and never selects the until-EOF reader;
`Response::into_reader` uses the chunked decoder whenever any
`Transfer-Encoding` header with a non-empty value is present, else the
content-length limiter on a parseable `Content-Length`, else the
until-EOF reader. -/
theorem c1_amended :
    (∀ hs : Headers, Limiter.from_res hs ≠ LimiterSel.untilEnd) ∧
    (∀ hs : Headers,
      ((getHeader hs "transfer-encoding").map (fun h => h == "chunked")).getD false
          = true ∨
        (getHeader hs "content-size").bind (parseUnsigned 64) = none →
      Limiter.from_res hs = LimiterSel.chunked) ∧
    (∀ (hs : Headers) (n : Nat),
      ((getHeader hs "transfer-encoding").map (fun h => h == "chunked")).getD false
          = false →
      (getHeader hs "content-size").bind (parseUnsigned 64) = some n →
      Limiter.from_res hs = LimiterSel.contentLength n) ∧
    (∀ hs : Headers,
      ((headerValue hs "transfer-encoding").map
          (fun enc => decide (enc.length > 0))).getD false = true →
      intoReaderSel hs = LimiterSel.chunked) ∧
    (∀ (hs : Headers) (n : Nat),
      ((headerValue hs "transfer-encoding").map
          (fun enc => decide (enc.length > 0))).getD false = false →
      (headerValue hs "content-length").bind (parseUnsigned 64) = some n →
      intoReaderSel hs = LimiterSel.contentLength n) ∧
    (∀ hs : Headers,
      ((headerValue hs "transfer-encoding").map
          (fun enc => decide (enc.length > 0))).getD false = false →
      (headerValue hs "content-length").bind (parseUnsigned 64) = none →
      intoReaderSel hs = LimiterSel.untilEnd) := by
  refine ⟨?_, ?_, ?_, ?_, ?_, ?_⟩
  · intro hs
    unfold Limiter.from_res
    cases hcs : (getHeader hs "content-size").bind (parseUnsigned 64) with
    | none => simp [hcs]
    | some n =>
      cases htec :
          ((getHeader hs "transfer-encoding").map (fun h => h == "chunked")).getD false with
      | true => simp [hcs, htec]
      | false => simp [hcs, htec]
  · intro hs h
    unfold Limiter.from_res
    rcases h with h | h
    · simp [h]
    · simp [h]
  · intro hs n hte hcs
    unfold Limiter.from_res
    simp [hte, hcs]
  · intro hs h
    unfold intoReaderSel
    simp [h]
  · intro hs n hte hcl
    unfold intoReaderSel
    simp [hte, hcl]
  · intro hs hte hcl
    unfold intoReaderSel
    simp [hte, hcl]

/-- C1 amended, witnessed at concrete header maps: a `content-size`
header does drive the content-length limiter in `from_res`, and
`into_reader` follows the claimed precedence when `Transfer-Encoding`
is absent. -/
theorem c1_amended_witness :
    Limiter.from_res [("content-size", "7")] = LimiterSel.contentLength 7 ∧
    Limiter.from_res [] = LimiterSel.chunked ∧
    intoReaderSel [("Content-Length", "9")] = LimiterSel.contentLength 9 ∧
    intoReaderSel [] = LimiterSel.untilEnd := by
  refine ⟨?_, ?_, ?_, ?_⟩
  · exact c1_amended.2.2.1 [("content-size", "7")] 7 (by decide) (by decide)
  · exact c1_amended.2.1 [] (Or.inr (by decide))
  · exact c1_amended.2.2.2.2.1 [("Content-Length", "9")] 9 (by decide) (by decide)
  · exact c1_amended.2.2.2.2.2 [] (by decide) (by decide)

/-- C2 counterexample: a response with `Transfer-Encoding: identity`
(no content-length, nobody sent `Connection: close`) is judged reusable
by the code, while the claim's formula — which demands chunked transfer
encoding — says it is not. -/
theorem c2_counterexample :
    keepAlivePossible [] [("Transfer-Encoding", "identity")] = true ∧
    claimKeepAlive [] [("Transfer-Encoding", "identity")] = false := by
  refine ⟨by decide, by decide⟩

/-- C2 amended: the reuse flag equals NOT request-close AND NOT
response-close AND (a Content-Length header is present OR a
Transfer-Encoding header — of any value, not only chunked — is
present). -/
theorem c2_amended :
    ∀ req resp : Headers,
      keepAlivePossible req resp = true ↔
        (¬ ((headerValue req "connection").map
              (fun k => containsSub (asciiLower k) "close")).getD false = true ∧
         ¬ ((headerValue resp "connection").map
              (fun k => containsSub (asciiLower k) "close")).getD false = true ∧
         ((∃ v, getHeader resp "content-length" = some v) ∨
          (∃ v, getHeader resp "transfer-encoding" = some v))) := by
  intro req resp
  unfold keepAlivePossible hasHeaderL
  constructor
  · intro h
    simp only [Bool.and_eq_true, Bool.not_eq_true', Bool.or_eq_true,
      Option.isSome_iff_exists] at h
    exact ⟨by simp [h.1.1], by simp [h.1.2], h.2⟩
  · intro h
    simp only [Bool.and_eq_true, Bool.not_eq_true', Bool.or_eq_true,
      Option.isSome_iff_exists]
    refine ⟨⟨?_, ?_⟩, h.2.2⟩
    · cases hb : ((headerValue req "connection").map
          (fun k => containsSub (asciiLower k) "close")).getD false
      · rfl
      · exact absurd hb h.1
    · cases hb : ((headerValue resp "connection").map
          (fun k => containsSub (asciiLower k) "close")).getD false
      · rfl
      · exact absurd hb h.2.1

/-- Whatever the scanner consumed is exactly what ends up in the
buffer: the final buffer plus the unread remainder reassemble the
accumulated-so-far bytes plus the incoming stream. -/
theorem recvResScan_append (rest : List Nat) : ∀ (ei : Nat) (buf out rem : List Nat),
    recvResScan ei buf rest = some (out, rem) → out ++ rem = buf ++ rest := by
  induction rest with
  | nil =>
    intro ei buf out rem h
    simp [recvResScan] at h
  | cons b rest ih =>
    intro ei buf out rem h
    simp only [recvResScan] at h
    by_cases hb : b = endOfHeader.getD ei 0
    · rw [if_pos hb] at h
      by_cases h4 : ei + 1 = endOfHeader.length
      · rw [if_pos h4] at h
        simp only [Option.some.injEq, Prod.mk.injEq] at h
        obtain ⟨rfl, rfl⟩ := h
        simp
      · rw [if_neg h4] at h
        simpa using ih _ _ _ _ h
    · rw [if_neg hb] at h
      rw [if_neg (by decide : (0 : Nat) ≠ endOfHeader.length)] at h
      simpa using ih _ _ _ _ h

/-- While scanning, the matched prefix of the terminator is a suffix of
the accumulated buffer; so when the counter reaches four the buffer
ends with the full terminator. -/
theorem recvResScan_terminator (rest : List Nat) : ∀ (ei : Nat) (buf out rem : List Nat),
    ei ≤ 3 →
    endOfHeader.take ei <:+ buf →
    recvResScan ei buf rest = some (out, rem) →
    endOfHeader <:+ out := by
  induction rest with
  | nil =>
    intro ei buf out rem _ _ h
    simp [recvResScan] at h
  | cons b rest ih =>
    intro ei buf out rem hle hsuf h
    simp only [recvResScan] at h
    by_cases hb : b = endOfHeader.getD ei 0
    · rw [if_pos hb] at h
      have hsuf' : endOfHeader.take (ei + 1) <:+ buf ++ [b] := by
        obtain ⟨t, ht⟩ := hsuf
        subst hb
        interval_cases ei <;> exact ⟨t, by subst ht; simp [endOfHeader]⟩
      by_cases h4 : ei + 1 = endOfHeader.length
      · rw [if_pos h4] at h
        simp only [Option.some.injEq, Prod.mk.injEq] at h
        obtain ⟨rfl, rfl⟩ := h
        have htake : endOfHeader.take (ei + 1) = endOfHeader := by
          rw [h4, List.take_length]
        rwa [htake] at hsuf'
      · rw [if_neg h4] at h
        have hle' : ei + 1 ≤ 3 := by
          simp only [endOfHeader, List.length_cons, List.length_nil] at h4
          omega
        exact ih _ _ _ _ hle' hsuf' h
    · rw [if_neg hb] at h
      rw [if_neg (by decide : (0 : Nat) ≠ endOfHeader.length)] at h
      exact ih _ _ _ _ (by omega) (by simp) h

/-- C3 counterexample: on the stream CR CR LF CR LF CR LF the first
occurrence of CR LF CR LF ends at the fifth byte, so the claim says the
accumulated buffer is the 5-byte prefix with CR LF left unread; the
code's scanner misses that occurrence (the mismatch at the second CR
resets the counter without re-examining the byte) and consumes all
seven bytes. -/
theorem c3_counterexample :
    recvResScan 0 [] [13, 13, 10, 13, 10, 13, 10]
      = some ([13, 13, 10, 13, 10, 13, 10], []) ∧
    claimHeaderScan [] [13, 13, 10, 13, 10, 13, 10]
      = some ([13, 13, 10, 13, 10], [13, 10]) := by
  refine ⟨by decide, by decide⟩

/-- C3 amended: whenever the header accumulation completes, the
accumulated buffer is exactly the bytes consumed from the transport
(nothing beyond it has been read) and it ends with CR LF CR LF — but it
is not always the FIRST occurrence of that sequence, because the
scanner's reset on mismatch can skip over an overlapping terminator. -/
theorem c3_amended : ∀ (stream out rem : List Nat),
    recvResScan 0 [] stream = some (out, rem) →
    out ++ rem = stream ∧ endOfHeader <:+ out := by
  intro stream out rem h
  constructor
  · simpa using recvResScan_append stream 0 [] out rem h
  · exact recvResScan_terminator stream 0 [] out rem (by omega) (by simp) h

/-- C3 amended, witnessed on the stream "A\r\n\r\nB": the scan stops
with buffer "A\r\n\r\n" and the byte "B" unread. -/
theorem c3_amended_witness :
    [65, 13, 10, 13, 10] ++ [66] = [65, 13, 10, 13, 10, 66] ∧
    endOfHeader <:+ [65, 13, 10, 13, 10] :=
  c3_amended [65, 13, 10, 13, 10, 66] [65, 13, 10, 13, 10] [66] (by decide)

/-- Each poll step either leaves the state unchanged or moves along an
edge of the spec's transition table. -/
theorem hinner_step_edge (i : HInner) (e : HEvent) :
    (i.step e).state = i.state ∨ specEdge i.state (i.step e).state := by
  obtain ⟨ns, cs, st, er⟩ := i
  cases st <;> cases e <;>
    simp only [HInner.step, HInner.markError, specEdge] <;>
    norm_num <;>
    split_ifs <;>
    simp [specEdge]

/-- A closed connection performs no step: `Connection::poll` returns
before touching any task. -/
theorem hinner_step_closed (i : HInner) (e : HEvent) (h : i.state = HState.Closed) :
    i.step e = i := by
  simp [HInner.step, h]

/-- `Closed` is absorbing over any run. -/
theorem hinner_run_closed (i : HInner) (es : List HEvent) (h : i.state = HState.Closed) :
    i.run es = i := by
  induction es with
  | nil => rfl
  | cons e es ih =>
    rw [HInner.run, hinner_step_closed i e h]
    exact ih

/-- The first element of a state trace is the starting state. -/
theorem stateTrace_head (i : HInner) (es : List HEvent) :
    (i.stateTrace es).head? = some i.state := by
  cases es <;> rfl

/-- C4: starting from a fresh connection, the sequence of values taken
by `Inner.state` over any sequence of engine poll steps is a walk on
the spec's transition table (consecutive states are equal or joined by
a table edge: Ready to SendBody/Waiting on request-head written,
SendBody to SendBody/Waiting on body chunk written, Waiting to
RecvBody on header terminator, RecvBody to Ready/Closed on a 0-byte
read, anything to Closed on IO error), and `Closed` is absorbing. -/
theorem c4_engine_walk :
    (∀ es : List HEvent,
      (HInner.new.stateTrace es).Chain' (fun a b => a = b ∨ specEdge a b)) ∧
    (∀ (i : HInner) (es : List HEvent), i.state = HState.Closed →
      (i.run es).state = HState.Closed) := by
  constructor
  · have main : ∀ (es : List HEvent) (i : HInner),
        (i.stateTrace es).Chain' (fun a b => a = b ∨ specEdge a b) := by
      intro es
      induction es with
      | nil =>
        intro i
        simp [HInner.stateTrace]
      | cons e es ih =>
        intro i
        rw [HInner.stateTrace]
        refine List.chain'_cons'.mpr ⟨?_, ih _⟩
        intro y hy
        rw [stateTrace_head] at hy
        simp only [Option.mem_def, Option.some.injEq] at hy
        subst hy
        exact (hinner_step_edge i e).imp Eq.symm id
    exact fun es => main es HInner.new
  · intro i es h
    rw [hinner_run_closed i es h]
    exact h

/-- C4, witnessed: a connection closed by an IO error stays `Closed`
over further poll steps, and a concrete two-step trace is a chain. -/
theorem c4_engine_walk_witness :
    ((HInner.new.markError "broken pipe").run
        [HEvent.recvResDone, HEvent.sendReqDone true]).state = HState.Closed :=
  c4_engine_walk.2 (HInner.new.markError "broken pipe")
    [HEvent.recvResDone, HEvent.sendReqDone true] rfl

/-- C5: a transport IO error closes the connection and stores the
error on `Inner`; the connection then never leaves that state, and
every later `ResponseFuture` poll and `SendStream` readiness poll
returns `Ready(Err(..))` carrying the stored error's message. -/
theorem c5_error_poisons_handles :
    ∀ (i : HInner) (msg : String) (es : List HEvent),
      (i.markError msg).state = HState.Closed ∧
      (i.markError msg).error = some msg ∧
      (i.markError msg).run es = i.markError msg ∧
      responseFuturePoll ((i.markError msg).run es)
        = PollOutcome.readyErr (HErr.message msg) ∧
      sendStreamPollCanSendData ((i.markError msg).run es)
        = PollOutcome.readyErr (HErr.message msg) := by
  intro i msg es
  have hrun : (i.markError msg).run es = i.markError msg :=
    hinner_run_closed _ _ rfl
  refine ⟨rfl, rfl, hrun, ?_, ?_⟩
  · rw [hrun]
    rfl
  · rw [hrun]
    rfl

/-- C6: a response body that ends with `reuse_conn = false` moves the
engine to `Closed` without storing any error; `get_remote_error` then
unwraps `None` and panics, so polling the `ResponseFuture` or the
`SendStream` on such a cleanly closed connection panics instead of
returning an error. -/
theorem c6_clean_close_panics :
    ∀ i : HInner, i.state = HState.RecvBody → i.error = none →
      (i.step (HEvent.recvBodyRead 0 false)).state = HState.Closed ∧
      (i.step (HEvent.recvBodyRead 0 false)).error = none ∧
      (i.step (HEvent.recvBodyRead 0 false)).getRemoteError = Unwrapped.panicked ∧
      responseFuturePoll (i.step (HEvent.recvBodyRead 0 false))
        = PollOutcome.panicked ∧
      sendStreamPollCanSendData (i.step (HEvent.recvBodyRead 0 false))
        = PollOutcome.panicked := by
  intro i hst herr
  have hstep : i.step (HEvent.recvBodyRead 0 false) = { i with state := HState.Closed } := by
    simp [HInner.step, hst]
  rw [hstep]
  refine ⟨rfl, herr, ?_, ?_, ?_⟩
  · simp [HInner.getRemoteError, herr]
  · simp [responseFuturePoll, HInner.getRemoteError, herr]
  · simp [sendStreamPollCanSendData, HInner.getRemoteError, herr]

/-- C6, witnessed on a state reachable from a fresh connection: send a
request with no body, receive the header terminator, then a 0-byte
body read with reuse off — the next `ResponseFuture` poll panics. -/
theorem c6_clean_close_panics_witness :
    responseFuturePoll (((HInner.new.step (HEvent.sendReqDone true)).step
        HEvent.recvResDone).step (HEvent.recvBodyRead 0 false))
      = PollOutcome.panicked :=
  (c6_clean_close_panics
    ((HInner.new.step (HEvent.sendReqDone true)).step HEvent.recvResDone)
    (by decide) (by decide)).2.2.2.1

/-- C7 counterexample: a fresh `BodyReader` over a source holding three
bytes returns 0 from a read into an empty destination buffer (the fill
succeeds but `max = min(read_buf_end, 0) = 0`) without marking itself
finished, and the very next read returns the three bytes — so a 0-byte
result does not permanently finish the stream. -/
theorem c7_counterexample :
    (brPollRead ⟨[], [], false, [1, 2, 3]⟩ 0).1 = 0 ∧
    (brPollRead (brPollRead ⟨[], [], false, [1, 2, 3]⟩ 0).2 3).1 ≠ 0 := by
  refine ⟨by decide, by decide⟩

/-- C7 amended: for `RecvStream::read` any read that returns 0 marks
the stream finished, and a finished stream returns 0 without consulting
the limiter; for `BodyReader::poll_read` a read into a NON-EMPTY buffer
that returns 0 leaves the reader finished with an empty internal
buffer, and such a reader answers every later read with 0, its state
(the underlying source included) untouched. Only a read into an empty
destination buffer can return 0 without finishing the stream. -/
theorem c7_amended :
    (∀ (f : Bool) (a : Nat), (recvStreamRead f a).1 = 0 → (recvStreamRead f a).2 = true) ∧
    (∀ a : Nat, recvStreamRead true a = (0, true)) ∧
    (∀ (b : BodyReaderM) (len : Nat), 0 < len → (brPollRead b len).1 = 0 →
      (brPollRead b len).2.isFinished = true ∧ (brPollRead b len).2.bufContent = []) ∧
    (∀ (b : BodyReaderM) (len : Nat), b.isFinished = true → b.bufContent = [] →
      brPollRead b len = (0, b)) := by
  refine ⟨?_, ?_, ?_, ?_⟩
  · intro f a h
    cases f with
    | true => rfl
    | false =>
      simp [recvStreamRead] at h ⊢
      simp [h]
  · intro a
    rfl
  · intro b len hlen h
    obtain ⟨bc, lo, fin, src⟩ := b
    cases bc with
    | cons x xs =>
      exfalso
      simp [brPollRead] at h
      omega
    | nil =>
      cases fin with
      | true => simp [brPollRead]
      | false =>
        cases lo with
        | cons y ys =>
          exfalso
          simp [brPollRead, doPollFill, pollReadToBuf, bufSize] at h
          omega
        | nil =>
          cases src with
          | nil => simp [brPollRead, doPollFill, pollReadToBuf, bufSize]
          | cons z zs =>
            exfalso
            simp [brPollRead, doPollFill, pollReadToBuf, bufSize] at h
            omega
  · intro b len h1 h2
    obtain ⟨bc, lo, fin, src⟩ := b
    simp only at h1 h2
    subst h1
    subst h2
    simp [brPollRead]

/-- C7 amended, witnessed: a reader whose source is exhausted finishes
on a 1-byte read and stays empty; a finished reader with bytes still in
its source returns 0 and leaves the source untouched; a `RecvStream`
read of 0 bytes sets the finished flag. -/
theorem c7_amended_witness :
    (recvStreamRead false 0).2 = true ∧
    ((brPollRead ⟨[], [], false, []⟩ 1).2.isFinished = true ∧
      (brPollRead ⟨[], [], false, []⟩ 1).2.bufContent = []) ∧
    brPollRead ⟨[], [], true, [7]⟩ 4 = (0, ⟨[], [], true, [7]⟩) := by
  refine ⟨?_, ?_, ?_⟩
  · exact c7_amended.1 false 0 (by decide)
  · exact c7_amended.2.2.1 ⟨[], [], false, []⟩ 1 (by decide) (by decide)
  · exact c7_amended.2.2.2 ⟨[], [], true, [7]⟩ 4 (by decide) (by decide)

/-- A sequence of reads never hands out more than what is left of the
declared length. -/
theorem clReadSeqTotal_le (lens : List Nat) : ∀ (cl : CLimit) (src : Nat),
    clReadSeqTotal cl src lens ≤ cl.limit - cl.total := by
  induction lens with
  | nil =>
    intro cl src
    simp [clReadSeqTotal]
  | cons b bs ih =>
    intro cl src
    simp only [clReadSeqTotal, CLimit.read_from]
    by_cases h0 : cl.limit - cl.total = 0
    · rw [if_pos h0]
      have hh := ih cl src
      simp
      omega
    · rw [if_neg h0]
      have hh := ih ⟨cl.limit, cl.total + min (min b (cl.limit - cl.total)) src⟩
        (src - min (min b (cl.limit - cl.total)) src)
      simp at hh ⊢
      omega

/-- Draining with a positive buffer yields exactly the smaller of what
the limiter still allows and what the source still has. -/
theorem clDrain_eq (fuel : Nat) : ∀ (cl : CLimit) (src len : Nat), 0 < len →
    min (cl.limit - cl.total) src < fuel →
    clDrain fuel cl src len = min (cl.limit - cl.total) src := by
  induction fuel with
  | zero =>
    intro cl src len _ hf
    omega
  | succ fuel ih =>
    intro cl src len hlen hf
    simp only [clDrain, CLimit.read_from]
    by_cases h0 : cl.limit - cl.total = 0
    · rw [if_pos h0]
      simp
      omega
    · rw [if_neg h0]
      by_cases hz : min (min len (cl.limit - cl.total)) src = 0
      · rw [hz]
        simp
        omega
      · rw [if_neg hz]
        have hrec := ih ⟨cl.limit, cl.total + min (min len (cl.limit - cl.total)) src⟩
          (src - min (min len (cl.limit - cl.total)) src) len hlen (by simp only; omega)
        simp only at hrec
        rw [hrec]
        omega

/-- As `clReadSeqTotal_le`, for the sync `LimitedRead`. -/
theorem lrReadSeqTotal_le (lens : List Nat) : ∀ (lr : LimitedReadM) (src : Nat),
    lrReadSeqTotal lr src lens ≤ lr.limit - lr.position := by
  induction lens with
  | nil =>
    intro lr src
    simp [lrReadSeqTotal]
  | cons b bs ih =>
    intro lr src
    simp only [lrReadSeqTotal, LimitedReadM.read]
    have heq : (if lr.limit - lr.position < b then lr.limit - lr.position else b)
        = min (lr.limit - lr.position) b := by
      split_ifs <;> omega
    rw [heq]
    have := ih ⟨lr.limit, lr.position + min (min (lr.limit - lr.position) b) src⟩
      (src - min (min (lr.limit - lr.position) b) src)
    simp only at this
    omega

/-- As `clDrain_eq`, for the sync `LimitedRead`. -/
theorem lrDrain_eq (fuel : Nat) : ∀ (lr : LimitedReadM) (src len : Nat), 0 < len →
    min (lr.limit - lr.position) src < fuel →
    lrDrain fuel lr src len = min (lr.limit - lr.position) src := by
  induction fuel with
  | zero =>
    intro lr src len _ hf
    omega
  | succ fuel ih =>
    intro lr src len hlen hf
    simp only [lrDrain, LimitedReadM.read]
    have heq : (if lr.limit - lr.position < len then lr.limit - lr.position else len)
        = min (lr.limit - lr.position) len := by
      split_ifs <;> omega
    rw [heq]
    by_cases hz : min (min (lr.limit - lr.position) len) src = 0
    · rw [hz]
      simp
      omega
    · rw [if_neg hz]
      have hrec := ih ⟨lr.limit, lr.position + min (min (lr.limit - lr.position) len) src⟩
        (src - min (min (lr.limit - lr.position) len) src) len hlen (by simp only; omega)
      simp only at hrec
      rw [hrec]
      omega

/-- C8: for both content-length-limited readers — the async
`ContentLength` and the sync `LimitedRead` — the total delivered over
any read sequence never exceeds the declared length L; once the length
is reached a read returns 0 and leaves the limiter and the source
untouched; and draining with any positive buffer yields exactly
`min L src`, hence exactly L whenever the source has at least L bytes
(no premature end-of-stream). -/
theorem c8_content_length_limit :
    (∀ (L src : Nat) (lens : List Nat),
      clReadSeqTotal (CLimit.new L) src lens ≤ L) ∧
    (∀ (cl : CLimit) (src len : Nat), cl.total = cl.limit →
      cl.read_from src len = (0, cl, src)) ∧
    (∀ (L src len fuel : Nat), 0 < len → min L src < fuel →
      clDrain fuel (CLimit.new L) src len = min L src) ∧
    (∀ (L src len fuel : Nat), 0 < len → L ≤ src → L < fuel →
      clDrain fuel (CLimit.new L) src len = L) ∧
    (∀ (L src : Nat) (lens : List Nat),
      lrReadSeqTotal ⟨L, 0⟩ src lens ≤ L) ∧
    (∀ (lr : LimitedReadM) (src len : Nat), lr.position = lr.limit →
      lr.read src len = (0, lr, src)) ∧
    (∀ (L src len fuel : Nat), 0 < len → min L src < fuel →
      lrDrain fuel ⟨L, 0⟩ src len = min L src) ∧
    (∀ (L src len fuel : Nat), 0 < len → L ≤ src → L < fuel →
      lrDrain fuel ⟨L, 0⟩ src len = L) := by
  refine ⟨?_, ?_, ?_, ?_, ?_, ?_, ?_, ?_⟩
  · intro L src lens
    have := clReadSeqTotal_le lens (CLimit.new L) src
    simpa [CLimit.new] using this
  · intro cl src len h
    simp [CLimit.read_from, h]
  · intro L src len fuel hlen hf
    have := clDrain_eq fuel (CLimit.new L) src len hlen (by simpa [CLimit.new] using hf)
    simpa [CLimit.new] using this
  · intro L src len fuel hlen hsrc hf
    have h2 := clDrain_eq fuel (CLimit.new L) src len hlen
      (by simp [CLimit.new]; omega)
    simp only [CLimit.new] at h2 ⊢
    rw [h2]
    omega
  · intro L src lens
    have := lrReadSeqTotal_le lens ⟨L, 0⟩ src
    simpa using this
  · intro lr src len h
    have hamt : min (if lr.limit - lr.position < len then lr.limit - lr.position else len)
        src = 0 := by
      split_ifs <;> omega
    simp [LimitedReadM.read, hamt]
  · intro L src len fuel hlen hf
    have := lrDrain_eq fuel ⟨L, 0⟩ src len hlen (by simpa using hf)
    simpa using this
  · intro L src len fuel hlen hsrc hf
    have h3 := lrDrain_eq fuel ⟨L, 0⟩ src len hlen (by simp; omega)
    simp only at h3 ⊢
    rw [h3]
    simp
    omega

/-- C8, witnessed at the spec's scenario-1 numbers: a 5-byte body over
a source holding at least 5 bytes drains to exactly 5, a saturated
limiter reads 0 leaving everything untouched, and a short source caps
the drain. -/
theorem c8_content_length_limit_witness :
    clReadSeqTotal (CLimit.new 5) 9 [2, 2, 2, 2] ≤ 5 ∧
    CLimit.read_from ⟨5, 5⟩ 7 3 = (0, ⟨5, 5⟩, 7) ∧
    clDrain 6 (CLimit.new 5) 9 2 = 5 ∧
    clDrain 4 (CLimit.new 5) 3 2 = min 5 3 ∧
    LimitedReadM.read ⟨4, 4⟩ 7 3 = (0, ⟨4, 4⟩, 7) ∧
    lrDrain 5 ⟨4, 0⟩ 9 1 = 4 := by
  refine ⟨?_, ?_, ?_, ?_, ?_, ?_⟩
  · exact c8_content_length_limit.1 5 9 [2, 2, 2, 2]
  · exact c8_content_length_limit.2.1 ⟨5, 5⟩ 7 3 rfl
  · exact c8_content_length_limit.2.2.2.1 5 9 2 6 (by decide) (by decide) (by decide)
  · exact c8_content_length_limit.2.2.1 5 3 2 4 (by decide) (by decide)
  · exact c8_content_length_limit.2.2.2.2.2.1 ⟨4, 4⟩ 7 3 rfl
  · exact c8_content_length_limit.2.2.2.2.2.2.2 4 9 1 5 (by decide) (by decide) (by decide)

/-- C9 counterexample: configuring the deferred codec a second time —
with a different codec kind — is not an error: `resolve_deferred`
returns normally (it has no error channel) and silently leaves the
codec exactly as the first configuration set it. -/
theorem c9_counterexample :
    resolveDeferred (resolveDeferred (BodyCodecM.deferredC (some 0)) CodecKind.Plain)
        CodecKind.GzipDecode = BodyCodecM.plainC 0 ∧
    resolveDeferred (BodyCodecM.deferredC (some (0 : Nat))) CodecKind.Plain
      = BodyCodecM.plainC 0 := by
  refine ⟨rfl, rfl⟩

/-- Header-derived codec kinds are never `Deferred`. -/
theorem from_headers_ne_deferred (hs : Headers) (d : Bool) :
    CodecKind.from_headers hs d ≠ CodecKind.Deferred := by
  unfold CodecKind.from_headers
  cases h : getHeader hs "content-encoding" with
  | none => cases d <;> simp
  | some v => cases d <;> simp <;> split_ifs <;> simp

/-- C9 amended: a second configuration after a header-derived first one
is a silent no-op (no error is raised, the codec keeps its first
configuration); a read before configuration fails fast by panicking in
`BodyCodec::poll_read`; and a codec configured from headers never hits
that panic. -/
theorem c9_amended :
    (∀ (r : Nat) (hs : Headers) (d : Bool) (k2 : CodecKind),
      resolveDeferred (resolveDeferred (BodyCodecM.deferredC (some r))
          (CodecKind.from_headers hs d)) k2
        = resolveDeferred (BodyCodecM.deferredC (some r)) (CodecKind.from_headers hs d)) ∧
    (∀ r : Option Nat, BodyCodecM.pollReadPanics (BodyCodecM.deferredC r) = true) ∧
    (∀ (r : Nat) (hs : Headers) (d : Bool),
      BodyCodecM.pollReadPanics (resolveDeferred (BodyCodecM.deferredC (some r))
          (CodecKind.from_headers hs d)) = false) := by
  refine ⟨?_, ?_, ?_⟩
  · intro r hs d k2
    have hk := from_headers_ne_deferred hs d
    cases hkc : CodecKind.from_headers hs d <;>
      simp_all [resolveDeferred, BodyCodecM.new]
  · intro r
    rfl
  · intro r hs d
    have hk := from_headers_ne_deferred hs d
    cases hkc : CodecKind.from_headers hs d <;>
      simp_all [resolveDeferred, BodyCodecM.new, BodyCodecM.pollReadPanics]

/-- C10 counterexample: with a URL query `a=1` and query-string
extension `b=2`, the conn.rs serialization path produces the
request-target query `?a=1b=2` — the two components concatenated with
no `&` — where the claim requires `?a=1&b=2`. -/
theorem c10_counterexample :
    connQueryString ⟨"/x", some "a=1", "example.com"⟩ "b=2" = "?a=1b=2" ∧
    specQuery (some "a=1") "b=2" = "?a=1&b=2" ∧
    connQueryString ⟨"/x", some "a=1", "example.com"⟩ "b=2"
      ≠ specQuery (some "a=1") "b=2" := by
  refine ⟨by decide, by decide, by decide⟩

/-- CR LF as characters. -/
def crlfChars : List Char := ['\r', '\n']

/-- A list ending in CR LF keeps that suffix under right-extension by
another such list (or by nothing). -/
theorem crlf_suffix_append {a b : List Char} (ha : crlfChars <:+ a)
    (hb : b = [] ∨ crlfChars <:+ b) : crlfChars <:+ a ++ b := by
  rcases hb with rfl | ⟨t, ht⟩
  · simpa using ha
  · exact ⟨a ++ t, by rw [← ht, List.append_assoc]⟩


/-- A suffix of the right part is a suffix of the whole. -/
theorem suffix_append_left {l b : List Char} (h : l <:+ b) (a : List Char) :
    l <:+ a ++ b := by
  obtain ⟨t, ht⟩ := h
  exact ⟨a ++ t, by rw [← ht, List.append_assoc]⟩

/-- If every emitted line ends in CR LF, their concatenation is empty
or ends in CR LF. -/
theorem concatLines_crlf (l : List String)
    (hl : ∀ s ∈ l, crlfChars <:+ s.data) :
    (concatLines l).data = [] ∨ crlfChars <:+ (concatLines l).data := by
  induction l with
  | nil => left; rfl
  | cons s rest ih =>
    right
    rw [concatLines, String.data_append]
    refine crlf_suffix_append (hl s (by simp)) ?_
    exact ih (fun t ht => hl t (by simp [ht]))

/-- The header lines `send_prelude` emits all end in CR LF. -/
theorem header_lines_end_crlf (use100 : Bool) (hs : Headers) :
    ∀ s ∈ hs.filterMap (fun h =>
        if !use100 && headerPairIsName h "expect" && headerPairValueIs h "100-continue"
        then none
        else some (h.1 ++ ": " ++ trimStr h.2 ++ "\r\n")),
      crlfChars <:+ s.data := by
  intro s hsm
  rw [List.mem_filterMap] at hsm
  obtain ⟨p, _, hfp⟩ := hsm
  split at hfp
  · exact absurd hfp (by simp)
  · have hs' : s = p.1 ++ ": " ++ trimStr p.2 ++ "\r\n" := by
      simpa [eq_comm] using hfp
    subst hs'
    rw [String.data_append]
    exact suffix_append_left ⟨[], by decide⟩ _

/-- The serialized request head always ends with an empty CR LF line:
its last four characters are CR LF CR LF. -/
theorem send_prelude_ends_empty_line (unitv : UnitM) (method : String) (use100 : Bool) :
    crlfChars ++ crlfChars <:+ (send_prelude unitv method use100).data := by
  unfold send_prelude
  rw [String.data_append]
  have h1 : crlfChars <:+
      (method ++ " " ++ unitv.url.path ++ unitv.queryString ++ " HTTP/1.1\r\n").data := by
    rw [String.data_append]
    exact suffix_append_left ⟨" HTTP/1.1".data, by decide⟩ _
  have h2 : crlfChars <:+
      ((method ++ " " ++ unitv.url.path ++ unitv.queryString ++ " HTTP/1.1\r\n")
        ++ (if hasHeaderL unitv.headers "host" then ""
            else "Host: " ++ unitv.url.host ++ "\r\n")).data := by
    rw [String.data_append]
    refine crlf_suffix_append h1 ?_
    by_cases hh : hasHeaderL unitv.headers "host"
    · left
      simp [hh]
    · right
      simp only [hh, Bool.false_eq_true, if_false]
      rw [String.data_append]
      exact suffix_append_left ⟨[], by decide⟩ _
  have h3 : crlfChars <:+
      ((method ++ " " ++ unitv.url.path ++ unitv.queryString ++ " HTTP/1.1\r\n")
        ++ (if hasHeaderL unitv.headers "host" then ""
            else "Host: " ++ unitv.url.host ++ "\r\n")
        ++ concatLines (unitv.headers.filterMap (fun h =>
            if !use100 && headerPairIsName h "expect" && headerPairValueIs h "100-continue"
            then none
            else some (h.1 ++ ": " ++ trimStr h.2 ++ "\r\n")))).data := by
    rw [String.data_append]
    exact crlf_suffix_append h2
      (concatLines_crlf _ (header_lines_end_crlf use100 unitv.headers))
  obtain ⟨t, ht⟩ := h3
  refine ⟨t, ?_⟩
  have hc : ("\r\n" : String).data = crlfChars := by decide
  rw [hc, ← ht, List.append_assoc]

/-- `combine_query` computes exactly the query string the spec's words
describe. -/
theorem combine_query_eq_spec (u : UrlM) (q : String) :
    combine_query u q = specQuery u.query q := rfl

/-- C10 amended: through the unit.rs path the serialized head begins
with `METHOD SP path(specQuery) SP HTTP/1.1 CRLF` with the URL query
and the extension joined by `&`, a `Host:` line is inserted exactly
when the caller set none, and the head ends with an empty CRLF line;
through the conn.rs path the head has the same shape but the two query
components are concatenated WITHOUT the `&` separator. -/
theorem c10_request_head :
    (∀ (u : UrlM) (q : String), combine_query u q = specQuery u.query q) ∧
    (∀ (u : UrlM) (q method : String) (hs : Headers) (use100 : Bool),
      ∃ rest, send_prelude ⟨u, combine_query u q, hs⟩ method use100
        = method ++ " " ++ u.path ++ specQuery u.query q ++ " HTTP/1.1\r\n" ++ rest) ∧
    (∀ (unitv : UnitM) (method : String) (use100 : Bool),
      hasHeaderL unitv.headers "host" = false →
      ∃ rest, send_prelude unitv method use100
        = method ++ " " ++ unitv.url.path ++ unitv.queryString ++ " HTTP/1.1\r\n"
          ++ ("Host: " ++ unitv.url.host ++ "\r\n") ++ rest) ∧
    (∀ (unitv : UnitM) (method : String) (use100 : Bool),
      hasHeaderL unitv.headers "host" = true →
      send_prelude unitv method use100
        = method ++ " " ++ unitv.url.path ++ unitv.queryString ++ " HTTP/1.1\r\n"
          ++ concatLines (unitv.headers.filterMap (fun h =>
              if !use100 && headerPairIsName h "expect" && headerPairValueIs h "100-continue"
              then none
              else some (h.1 ++ ": " ++ trimStr h.2 ++ "\r\n")))
          ++ "\r\n") ∧
    (∀ (unitv : UnitM) (method : String) (use100 : Bool),
      crlfChars ++ crlfChars <:+ (send_prelude unitv method use100).data) ∧
    (∀ (path host uq q : String), 0 < q.length →
      connQueryString ⟨path, some uq, host⟩ q = "?" ++ uq ++ q) ∧
    (∀ (u : UrlM) (q method : String) (hs : Headers),
      ∃ rest, connPrelude u q method hs
        = method ++ " " ++ u.path ++ connQueryString u q ++ " HTTP/1.1\r\n" ++ rest) := by
  refine ⟨combine_query_eq_spec, ?_, ?_, ?_, send_prelude_ends_empty_line, ?_, ?_⟩
  · intro u q method hs use100
    refine ⟨(if hasHeaderL hs "host" then "" else "Host: " ++ u.host ++ "\r\n")
      ++ concatLines (hs.filterMap (fun h =>
          if !use100 && headerPairIsName h "expect" && headerPairValueIs h "100-continue"
          then none
          else some (h.1 ++ ": " ++ trimStr h.2 ++ "\r\n")))
      ++ "\r\n", ?_⟩
    simp [send_prelude, combine_query_eq_spec, String.append_assoc]
  · intro unitv method use100 hh
    refine ⟨concatLines (unitv.headers.filterMap (fun h =>
        if !use100 && headerPairIsName h "expect" && headerPairValueIs h "100-continue"
        then none
        else some (h.1 ++ ": " ++ trimStr h.2 ++ "\r\n")))
      ++ "\r\n", ?_⟩
    simp [send_prelude, hh, String.append_assoc]
  · intro unitv method use100 hh
    simp [send_prelude, hh, String.append_assoc]
  · intro path host uq q h
    unfold connQueryString
    rw [decide_eq_true h]
  · intro u q method hs
    refine ⟨(if hasHeaderL hs "host" then "" else "Host: " ++ u.host ++ "\r\n")
      ++ concatLines (hs.map (fun h => h.1 ++ ": " ++ trimStr h.2 ++ "\r\n"))
      ++ "\r\n", ?_⟩
    simp [connPrelude, String.append_assoc]

/-- C10 amended, witnessed: a concrete GET with URL query `a=1` and
extension `b=2` and no caller Host header gets the Host line inserted,
and the conn.rs query string at those inputs concatenates without a
separator. -/
theorem c10_request_head_witness :
    (∃ rest, send_prelude ⟨⟨"/p", some "a=1", "ex.com"⟩,
        combine_query ⟨"/p", some "a=1", "ex.com"⟩ "b=2", []⟩ "GET" true
      = "GET" ++ " " ++ "/p" ++ combine_query ⟨"/p", some "a=1", "ex.com"⟩ "b=2"
        ++ " HTTP/1.1\r\n" ++ ("Host: " ++ "ex.com" ++ "\r\n") ++ rest) ∧
    connQueryString ⟨"/p", some "a=1", "ex.com"⟩ "b=2" = "?" ++ "a=1" ++ "b=2" := by
  constructor
  · exact c10_request_head.2.2.1
      ⟨⟨"/p", some "a=1", "ex.com"⟩, combine_query ⟨"/p", some "a=1", "ex.com"⟩ "b=2", []⟩
      "GET" true (by decide)
  · exact c10_request_head.2.2.2.2.2.1 "/p" "ex.com" "a=1" "b=2" (by decide)
